import Mathlib

/-!
Verification development for the PE (Windows) backend of a multi-format
binary loader (`cle/backends/pe.py`) and its loader placement algorithm.

The memory image of an object is modelled as a function from addresses
(RVAs, since the backer is registered at offset 0) to bytes.  Machine
integers are modelled as `Nat`/`Int` with explicit `% 2 ^ 32` where the
code truncates (`struct.pack('<I', v % 2**32)`); Python `%` on `Int` is
Euclidean remainder, which is Lean's `Int.emod`, the `%` of `Int`.
-/

/-- Read `n` bytes at `addr` from `mem` as a little-endian number
(`struct.unpack` of `memory.read_bytes(addr, n)`). -/
def readLE (mem : Nat → Nat) : Nat → Nat → Nat
  | _, 0 => 0
  | addr, n + 1 => mem addr + 256 * readLE mem (addr + 1) n

/-- Write the `n`-byte little-endian encoding of `v` at `addr`
(`memory.write_bytes(addr, struct.pack(...))`). -/
def writeLE (mem : Nat → Nat) (addr n v : Nat) : Nat → Nat :=
  fun a => if addr ≤ a ∧ a < addr + n then v / 256 ^ (a - addr) % 256 else mem a

/-- The state of one loaded PE object that relocation patching touches:
its link-time base, its loader-assigned mapped base, and its memory
image keyed by RVA (the PE backend adds its backer at offset 0). -/
structure PEObject where
  linked_base : Int
  mapped_base : Int
  memory : Nat → Nat

/-- Modelled from the spec: `AddressTranslator.rva_to_mva`
(the `address_translator` module is not under `src/`; spec §4.1 gives
`rva_to_mva(rva) = mapped_base + rva`). -/
def rva_to_mva (mapped_base rva : Int) : Int := mapped_base + rva

/-- Modelled from the spec: `AddressTranslator.lva_to_mva`
(spec §4.1: `lva_to_mva(lva) = mapped_base + (lva - link_base)`). -/
def lva_to_mva (linked_base mapped_base lva : Int) : Int :=
  mapped_base + (lva - linked_base)

/-- `WinReloc.relocate`, `IMAGE_REL_BASED_HIGHLOW` branch: read a 4-byte
little-endian word at the patch site, translate LVA→MVA, write back the
value reduced `% 2 ** 32` as 4 little-endian bytes. -/
def relocate_highlow (obj : PEObject) (addr : Nat) : PEObject :=
  let org_value : Int := (readLE obj.memory addr 4 : Nat)
  let rebased_value := lva_to_mva obj.linked_base obj.mapped_base org_value
  let packed := (rebased_value % 2 ^ 32).toNat
  { obj with memory := writeLE obj.memory addr 4 packed }

/-- `WinReloc.relocate`, `IMAGE_REL_BASED_DIR64` branch: as `HIGHLOW`
but 8 bytes wide and with no truncation (`struct.pack('<Q', v)` assumes
the value is already in range). -/
def relocate_dir64 (obj : PEObject) (addr : Nat) : PEObject :=
  let org_value : Int := (readLE obj.memory addr 8 : Nat)
  let rebased_value := lva_to_mva obj.linked_base obj.mapped_base org_value
  { obj with memory := writeLE obj.memory addr 8 rebased_value.toNat }

/-- `WinReloc.relocate` for base relocations (`symbol is None`),
dispatching on `reloc_type` with pefile's `RELOCATION_TYPE` values
`IMAGE_REL_BASED_ABSOLUTE = 0`, `IMAGE_REL_BASED_HIGHLOW = 3`,
`IMAGE_REL_BASED_DIR64 = 10`.  The boolean is true when the
"unimplemented relocation type" warning is logged; every other branch
logs nothing. -/
def winreloc_relocate (obj : PEObject) (reloc_type : Nat) (addr : Nat) :
    PEObject × Bool :=
  if reloc_type = 0 then (obj, false)
  else if reloc_type = 3 then (relocate_highlow obj addr, false)
  else if reloc_type = 10 then (relocate_dir64 obj addr, false)
  else (obj, true)

/-- `readLE` only looks at the bytes in `[addr, addr + n)`. -/
theorem readLE_congr (m1 m2 : Nat → Nat) :
    ∀ (n addr : Nat), (∀ a, addr ≤ a → a < addr + n → m1 a = m2 a) →
      readLE m1 addr n = readLE m2 addr n := by
  intro n
  induction n with
  | zero => intro addr _; rfl
  | succ n ih =>
    intro addr h
    simp only [readLE]
    rw [h addr (Nat.le_refl _) (by omega),
      ih (addr + 1) (fun a h1 h2 => h a (by omega) (by omega))]

/-- Reading back an `n`-byte little-endian write recovers the value
modulo `256 ^ n`. -/
theorem readLE_writeLE (mem : Nat → Nat) :
    ∀ (n addr v : Nat), readLE (writeLE mem addr n v) addr n = v % 256 ^ n := by
  intro n
  induction n with
  | zero => intro addr v; simp [readLE, Nat.mod_one]
  | succ n ih =>
    intro addr v
    simp only [readLE]
    have hbyte : writeLE mem addr (n + 1) v addr = v % 256 := by
      simp [writeLE]
    have htail : readLE (writeLE mem addr (n + 1) v) (addr + 1) n
        = readLE (writeLE mem (addr + 1) n (v / 256)) (addr + 1) n := by
      apply readLE_congr
      intro a h1 h2
      simp only [writeLE]
      rw [if_pos (by omega), if_pos (by omega)]
      have ha : a - addr = a - (addr + 1) + 1 := by omega
      rw [ha, pow_succ', Nat.div_div_eq_div_mul, Nat.mul_comm 256 (256 ^ (a - (addr + 1))),
        ← Nat.div_div_eq_div_mul]
    rw [hbyte, htail, ih, pow_succ', Nat.mod_mul]

/-- Bytes produced by `writeLE` inside the written window are the
little-endian digits of the written value. -/
theorem writeLE_byte (mem : Nat → Nat) (addr n v i : Nat) (h : i < n) :
    writeLE mem addr n v (addr + i) = v / 256 ^ i % 256 := by
  simp only [writeLE]
  rw [if_pos (by omega), Nat.add_sub_cancel_left]

/-- C2: a `HIGHLOW` base relocation whose 4-byte little-endian patch
site encodes LVA `V` leaves at that site exactly the 4-byte
little-endian encoding of `(mapped_base + (V - link_base)) mod 2 ^ 32`
of the owning object. -/
theorem highlow_reloc_writes_translated_lva (obj : PEObject) (addr V : Nat)
    (hbytes : ∀ i, i < 4 → obj.memory (addr + i) < 256)
    (hV : readLE obj.memory addr 4 = V) :
    readLE (winreloc_relocate obj 3 addr).1.memory addr 4
        = ((obj.mapped_base + ((V : Int) - obj.linked_base)) % 2 ^ 32).toNat ∧
      ∀ i, i < 4 → (winreloc_relocate obj 3 addr).1.memory (addr + i)
        = ((obj.mapped_base + ((V : Int) - obj.linked_base)) % 2 ^ 32).toNat / 256 ^ i % 256 := by
  have hobj : (winreloc_relocate obj 3 addr).1 = relocate_highlow obj addr := rfl
  have hpacked :
      ((lva_to_mva obj.linked_base obj.mapped_base ((readLE obj.memory addr 4 : Nat) : Int)) % 2 ^ 32).toNat
        = ((obj.mapped_base + ((V : Int) - obj.linked_base)) % 2 ^ 32).toNat := by
    rw [hV]; rfl
  constructor
  · rw [hobj]
    show readLE (writeLE obj.memory addr 4 _) addr 4 = _
    rw [readLE_writeLE, hpacked]
    apply Nat.mod_eq_of_lt
    show _ < 256 ^ 4
    have h32 : (0 : Int) < 2 ^ 32 := by norm_num
    have hlt := Int.emod_lt_of_pos (obj.mapped_base + ((V : Int) - obj.linked_base)) h32
    have hge := Int.emod_nonneg (obj.mapped_base + ((V : Int) - obj.linked_base)) (by norm_num : (2 ^ 32 : Int) ≠ 0)
    omega
  · intro i hi
    rw [hobj]
    show writeLE obj.memory addr 4 _ (addr + i) = _
    rw [writeLE_byte _ _ _ _ _ hi, hpacked]

/-- A concrete memory image for exercising the `HIGHLOW` patch: the
bytes `78 56 34 12` at RVA 0 (little-endian `0x12345678`). -/
def memHighlow : Nat → Nat := fun a =>
  if a = 0 then 0x78 else if a = 1 then 0x56 else if a = 2 then 0x34
  else if a = 3 then 0x12 else 0

theorem highlow_reloc_writes_translated_lva_witness :
    (∀ i, i < 4 → (PEObject.mk 0x400000 0x500000 memHighlow).memory (0 + i) < 256) ∧
    readLE (PEObject.mk 0x400000 0x500000 memHighlow).memory 0 4 = 0x12345678 ∧
    (readLE (winreloc_relocate (PEObject.mk 0x400000 0x500000 memHighlow) 3 0).1.memory 0 4
        = (((0x500000 : Int) + ((0x12345678 : Int) - 0x400000)) % 2 ^ 32).toNat ∧
      ∀ i, i < 4 → (winreloc_relocate (PEObject.mk 0x400000 0x500000 memHighlow) 3 0).1.memory (0 + i)
        = (((0x500000 : Int) + ((0x12345678 : Int) - 0x400000)) % 2 ^ 32).toNat / 256 ^ i % 256) :=
  ⟨by decide, by decide,
    highlow_reloc_writes_translated_lva (PEObject.mk 0x400000 0x500000 memHighlow) 0 0x12345678
      (by decide) (by decide)⟩

/-- `WinSymbol.rebased_addr`: overridden to use the RVA→MVA translation
(`AT.from_rva(self.addr, self.owner_obj).to_mva()`) because Windows
expresses addresses as RVAs. -/
def winsymbol_rebased_addr (owner : PEObject) (addr : Int) : Int :=
  rva_to_mva owner.mapped_base addr

/-- `WinReloc.rebased_addr`: the same RVA→MVA override as `WinSymbol`. -/
def winreloc_rebased_addr (owner : PEObject) (addr : Int) : Int :=
  rva_to_mva owner.mapped_base addr

/-- C4: both `WinSymbol.rebased_addr` and `WinReloc.rebased_addr` are
the RVA→MVA translation `mapped_base + addr` of the stored address, and
differ from the LVA→MVA translation whenever the link base is
nonzero. -/
theorem rebased_addr_uses_rva_translation (owner : PEObject) (addr : Int)
    (h : owner.linked_base ≠ 0) :
    winsymbol_rebased_addr owner addr = owner.mapped_base + addr ∧
    winreloc_rebased_addr owner addr = owner.mapped_base + addr ∧
    winsymbol_rebased_addr owner addr ≠ lva_to_mva owner.linked_base owner.mapped_base addr ∧
    winreloc_rebased_addr owner addr ≠ lva_to_mva owner.linked_base owner.mapped_base addr := by
  refine ⟨rfl, rfl, ?_, ?_⟩ <;>
  · simp only [winsymbol_rebased_addr, winreloc_rebased_addr, rva_to_mva, lva_to_mva]
    omega

theorem rebased_addr_uses_rva_translation_witness :
    winsymbol_rebased_addr (PEObject.mk 0x400000 0x500000 fun _ => 0) 7 = 0x500000 + 7 ∧
    winreloc_rebased_addr (PEObject.mk 0x400000 0x500000 fun _ => 0) 7 = 0x500000 + 7 ∧
    winsymbol_rebased_addr (PEObject.mk 0x400000 0x500000 fun _ => 0) 7
      ≠ lva_to_mva 0x400000 0x500000 7 ∧
    winreloc_rebased_addr (PEObject.mk 0x400000 0x500000 fun _ => 0) 7
      ≠ lva_to_mva 0x400000 0x500000 7 :=
  rebased_addr_uses_rva_translation (PEObject.mk 0x400000 0x500000 fun _ => 0) 7 (by decide)

/-- A candidate shared object as seen by symbol resolution: its
`provides` name and the names in its export table. -/
structure ExportObject where
  provides : Option String
  exports : List String
deriving DecidableEq

/-- Modelled from the spec: the generic `Relocation.resolve_symbol`
(the `relocations` module is not under `src/`; spec §4.3 describes it
as exact-name lookup against each candidate's export table in candidate
order, taking the first match). -/
def generic_resolve_symbol (name : String) (solist : List ExportObject) :
    Option ExportObject :=
  solist.find? (fun so => so.exports.contains name)

/-- `WinReloc.resolve_symbol`: unless `bypass_compatibility` is set,
restrict the candidate list to objects whose `provides` equals this
relocation's `resolvewith`, then defer to the generic resolution. -/
def winreloc_resolve_symbol (resolvewith : Option String) (name : String)
    (solist : List ExportObject) (bypass_compatibility : Bool) :
    Option ExportObject :=
  let kept := if bypass_compatibility then solist
    else solist.filter (fun x => resolvewith == x.provides)
  generic_resolve_symbol name kept

/-- C3: with `bypass_compatibility = false`, `WinReloc.resolve_symbol`
only ever resolves against a candidate whose `provides` equals the
relocation's `resolvewith`, whatever names the candidates export; with
`bypass_compatibility = true` it is the unfiltered generic search over
all candidates. -/
theorem resolve_respects_provider_constraint (resolvewith : Option String)
    (name : String) (solist : List ExportObject) (so : ExportObject)
    (h : winreloc_resolve_symbol resolvewith name solist false = some so) :
    so.provides = resolvewith ∧
    winreloc_resolve_symbol resolvewith name solist true
      = generic_resolve_symbol name solist := by
  constructor
  · have h' : (solist.filter (fun x => resolvewith == x.provides)).find?
        (fun so => so.exports.contains name) = some so := h
    have hmem : so ∈ solist.filter (fun x => resolvewith == x.provides) :=
      List.mem_of_find?_eq_some h'
    have hp := List.of_mem_filter hmem
    exact (beq_iff_eq.mp hp).symm
  · rfl

/-- Names used in concrete resolution examples. -/
def libdll : String := "lib.dll"

def otherdll : String := "other.dll"

def fname : String := "f"

theorem resolve_respects_provider_constraint_witness :
    (ExportObject.mk (some libdll) [fname]).provides = some libdll ∧
    winreloc_resolve_symbol (some libdll) fname
        [ExportObject.mk (some otherdll) [fname], ExportObject.mk (some libdll) [fname]] true
      = generic_resolve_symbol fname
        [ExportObject.mk (some otherdll) [fname], ExportObject.mk (some libdll) [fname]] :=
  resolve_respects_provider_constraint (some libdll) fname
    [ExportObject.mk (some otherdll) [fname], ExportObject.mk (some libdll) [fname]]
    (ExportObject.mk (some libdll) [fname]) (by decide)

/-- Modelled from the spec: the resolution state of a relocation
(spec §3 gives `state ∈ {unresolved, resolved, failed}`; the generic
`Relocation` base class holding it is not under `src/`). -/
inductive RelocState
  | unresolved
  | resolved
  | failed
deriving DecidableEq

/-- The fields of a `WinReloc` read by its `value` property: the
resolution state and, for a resolved relocation, the resolving symbol
(its owner and stored RVA), whose `rebased_addr` is reported. -/
structure WinRelocData where
  state : RelocState
  resolvedby_owner : PEObject
  resolvedby_addr : Int

/-- `WinReloc.value`: `self.resolvedby.rebased_addr` when resolved;
the property body has no else branch, so it returns `None`
otherwise. -/
def winreloc_value (r : WinRelocData) : Option Int :=
  if r.state = RelocState.resolved
  then some (winsymbol_rebased_addr r.resolvedby_owner r.resolvedby_addr)
  else none

/-- C10: `WinReloc.value` is `none` for any relocation not in the
resolved state, and yields the resolving symbol's rebased address only
in the resolved state. -/
theorem value_none_unless_resolved (r : WinRelocData) :
    (r.state ≠ RelocState.resolved → winreloc_value r = none) ∧
    ∀ v, winreloc_value r = some v →
      r.state = RelocState.resolved ∧
        v = winsymbol_rebased_addr r.resolvedby_owner r.resolvedby_addr := by
  constructor
  · intro h
    simp [winreloc_value, h]
  · intro v hv
    by_cases hs : r.state = RelocState.resolved
    · refine ⟨hs, ?_⟩
      simp only [winreloc_value, hs, if_pos] at hv
      exact (Option.some_inj.mp hv).symm
    · simp [winreloc_value, hs] at hv

theorem value_none_unless_resolved_witness :
    winreloc_value (WinRelocData.mk RelocState.failed (PEObject.mk 0 0 fun _ => 0) 0) = none :=
  (value_none_unless_resolved
    (WinRelocData.mk RelocState.failed (PEObject.mk 0 0 fun _ => 0) 0)).1 (by decide)


/-- One entry of a base-relocation block as delivered by pefile:
its RVA and its type code. -/
structure RelocEntry where
  rva : Nat
  rtype : Nat
deriving DecidableEq

/-- A relocation recorded by the table scan: the constructor arguments
of `WinReloc(self, None, rva, None, reloc_type, next_rva)`. -/
structure ScanReloc where
  rva : Nat
  reloc_type : Nat
  next_rva : Option Nat
deriving DecidableEq

/-- The scan loop of `PE._handle_relocs` over one base-relocation
block's entry list, with `IMAGE_REL_BASED_HIGHADJ = 4`.  The loop state
`entry_idx < len(entries)` corresponds to the `e :: rest` case, where
`len(entries) = entry_idx + 1 + rest.length`; the corrupt-table guard
`entry_idx == len(base_reloc.entries)` therefore reads
`0 = 1 + rest.length` here.  In the `HIGHADJ` branch the code binds
`next_entry = base_reloc.entries[entry_idx]` before incrementing
`entry_idx` — rebinding the current entry `e` — records `WinReloc` with
`next_rva = next_entry.rva`, and advances `entry_idx` by two in total;
the scan therefore continues past the head of `rest` (when `rest` is
empty the scan simply ends, matching `entry_idx` stepping past
`len(entries)`).  The boolean result records whether the "corrupt
relocation table" warning was logged (the `break`). -/
def handle_relocs_scan : List RelocEntry → List ScanReloc × Bool
  | [] => ([], false)
  | e :: rest =>
    if e.rtype = 4 then
      if 0 = 1 + rest.length then ([], true)
      else
        match rest with
        | [] => ([⟨e.rva, e.rtype, some e.rva⟩], false)
        | _ :: rest2 =>
          ((⟨e.rva, e.rtype, some e.rva⟩ : ScanReloc) :: (handle_relocs_scan rest2).1,
            (handle_relocs_scan rest2).2)
    else
      ((⟨e.rva, e.rtype, none⟩ : ScanReloc) :: (handle_relocs_scan rest).1,
        (handle_relocs_scan rest).2)

/-- C5 (code evaluation at the failing input): a `HIGHADJ` entry at RVA
`0x10` followed by one more entry at RVA `0x20` is consumed as a pair
(the follower is not separately recorded), but the single recorded
relocation carries `next_rva = 0x10` — the `HIGHADJ` entry's own RVA —
instead of the follower's `0x20`. -/
theorem highadj_records_own_rva :
    handle_relocs_scan [RelocEntry.mk 0x10 4, RelocEntry.mk 0x20 3]
        = ([ScanReloc.mk 0x10 4 (some 0x10)], false) ∧
      ScanReloc.mk 0x10 4 (some 0x10) ≠ ScanReloc.mk 0x10 4 (some 0x20) := by
  exact ⟨by decide, by decide⟩

/-- The corrupt-table warning branch of `PE._handle_relocs` is dead
code: no entry list makes the scan log it. -/
theorem scan_never_warns :
    ∀ entries : List RelocEntry, (handle_relocs_scan entries).2 = false
  | [] => rfl
  | e :: rest => by
    rw [handle_relocs_scan.eq_def]
    simp only []
    by_cases h : e.rtype = 4
    · rw [if_pos h, if_neg (by omega)]
      cases rest with
      | nil => rfl
      | cons f rest2 => exact scan_never_warns rest2
    · rw [if_neg h]
      exact scan_never_warns rest

/-- C6 (code evaluation at the failing input): for a table whose last
entry is a truncated `HIGHADJ` pair, the corrupt-table warning is not
logged — the guard `entry_idx == len(base_reloc.entries)` cannot hold
while the loop condition `entry_idx < len(base_reloc.entries)` does —
and a relocation is still recorded for the truncated entry; in fact no
input at all triggers the warning. -/
theorem truncated_highadj_never_warns :
    (∀ entries : List RelocEntry, (handle_relocs_scan entries).2 = false) ∧
      handle_relocs_scan [RelocEntry.mk 0x10 4]
        = ([ScanReloc.mk 0x10 4 (some 0x10)], false) :=
  ⟨scan_never_warns, by decide⟩

/-- C7: a symbol-free relocation whose type code is none of `ABSOLUTE`
(0), `HIGHLOW` (3), `DIR64` (10) or `HIGHADJ` (4) is logged as
unimplemented with no patch applied — `relocate` returns the object
unchanged — and the table scan records it as a relocation while
consuming exactly its own entry (the scan of the remaining entries is
unchanged). -/
theorem unknown_reloc_type_logged_not_patched (obj : PEObject)
    (t addr rva : Nat) (rest : List RelocEntry)
    (h0 : t ≠ 0) (h3 : t ≠ 3) (h10 : t ≠ 10) (h4 : t ≠ 4) :
    winreloc_relocate obj t addr = (obj, true) ∧
    handle_relocs_scan (RelocEntry.mk rva t :: rest)
      = (ScanReloc.mk rva t none :: (handle_relocs_scan rest).1,
        (handle_relocs_scan rest).2) := by
  constructor
  · simp only [winreloc_relocate, if_neg h0, if_neg h3, if_neg h10]
  · rw [handle_relocs_scan.eq_def]
    simp only []
    rw [if_neg h4]

theorem unknown_reloc_type_logged_not_patched_witness :
    winreloc_relocate (PEObject.mk 0x400000 0x500000 memHighlow) 5 0
        = (PEObject.mk 0x400000 0x500000 memHighlow, true) ∧
      handle_relocs_scan [RelocEntry.mk 0x30 5]
        = (ScanReloc.mk 0x30 5 none :: (handle_relocs_scan []).1,
          (handle_relocs_scan []).2) :=
  unknown_reloc_type_logged_not_patched (PEObject.mk 0x400000 0x500000 memHighlow)
    5 0 0x30 [] (by decide) (by decide) (by decide) (by decide)

/-- pefile's `get_dword_at_rva`: a 4-byte little-endian read from the
mapped image. -/
def get_dword_at_rva (mem : Nat → Nat) (rva : Nat) : Nat := readLE mem rva 4

/-- The scanning loop of `PE._register_tls_callbacks`: read successive
dwords, collecting nonzero values and stopping at the first zero.  The
`while` loop in the code is unbounded, so the model takes a fuel bound
to be chosen larger than the callback count. -/
def tls_scan_dwords (mem : Nat → Nat) : Nat → Nat → List Nat
  | _, 0 => []
  | rva, fuel + 1 =>
    if get_dword_at_rva mem rva = 0 then []
    else get_dword_at_rva mem rva :: tls_scan_dwords mem (rva + 4) fuel

/-- `PE._register_tls_callbacks`: translate the callback table address
(an LVA) to an RVA (`AT.from_lva(addr, self).to_rva()`, i.e.
`addr - linked_base`) and walk the dword array from there. -/
def register_tls_callbacks (mem : Nat → Nat) (linked_base addr fuel : Nat) : List Nat :=
  tls_scan_dwords mem (addr - linked_base) fuel

/-- Modelled from the spec: spec §4.2(7) prescribes "reading successive
pointer-sized words until a zero value is read", i.e. scanning with the
architecture's pointer width `ptr_bytes`.  It differs from the code's
scan only in the width of each read and of each step. -/
def tls_scan_ptrwords (mem : Nat → Nat) (ptr_bytes : Nat) : Nat → Nat → List Nat
  | _, 0 => []
  | rva, fuel + 1 =>
    if readLE mem rva ptr_bytes = 0 then []
    else readLE mem rva ptr_bytes :: tls_scan_ptrwords mem ptr_bytes (rva + ptr_bytes) fuel

/-- A 64-bit image's callback array at RVA 0: the qwords
`0x100000000, 0` — one callback above 4 GiB, then the zero
terminator.  As bytes, only the byte at RVA 4 is nonzero. -/
def mem64tls : Nat → Nat := fun a => if a = 4 then 1 else 0

/-- C8 (code evaluation at the failing input): on a pointer size of 8,
the callback array `[0x100000000, 0]` should yield exactly
`[0x100000000]` (the spec-modelled pointer-sized scan does), but the
code scans 4-byte dwords, reads the zero low dword of the first
callback, and returns no callbacks at all. -/
theorem tls_dword_scan_misses_64bit_callback :
    register_tls_callbacks mem64tls 0x400000 0x400000 8 = [] ∧
    tls_scan_ptrwords mem64tls 8 (0x400000 - 0x400000) 8 = [0x100000000] ∧
    ([] : List Nat) ≠ [0x100000000] := by
  refine ⟨by decide, by decide, by decide⟩

/-- One raw section record as delivered by pefile, with the field names
read by `PESection.__init__`. -/
structure RawSection where
  Name : String
  Misc_PhysicalAddress : Nat
  VirtualAddress : Nat
  Misc_VirtualSize : Nat
  Characteristics : Nat
deriving DecidableEq

/-- The `Section` fields set by `PESection.__init__`: name, physical
address as file address, `VirtualAddress + remap_offset` as virtual
address, virtual size, plus the raw characteristics bitmask kept on the
subclass. -/
structure PESection where
  name : String
  file_address : Nat
  virtual_address : Nat
  virtual_size : Nat
  characteristics : Nat
deriving DecidableEq

/-- `PESection.__init__(pe_section, remap_offset)`. -/
def PESection_init (pe_section : RawSection) (remap_offset : Nat) : PESection :=
  ⟨pe_section.Name, pe_section.Misc_PhysicalAddress,
    pe_section.VirtualAddress + remap_offset, pe_section.Misc_VirtualSize,
    pe_section.Characteristics⟩

/-- The fields of the PE backend that section registration touches: the
link-time base, the loader-assigned mapped base (equal to the link base
when the backend is constructed, but the loader may move the object
afterwards), and the raw section table. -/
structure PEBackendState where
  linked_base : Nat
  mapped_base : Nat
  raw_sections : List RawSection
deriving DecidableEq

/-- `PE._register_sections`: wrap each raw record via
`PESection(pe_section, remap_offset=self.linked_base)`. -/
def pe_register_sections (pe : PEBackendState) : List PESection :=
  pe.raw_sections.map (fun s => PESection_init s pe.linked_base)

/-- A section name for concrete examples. -/
def textname : String := ".text"

/-- A backend displaced by the loader: linked at `0x400000` but mapped
at `0x500000`, with one raw section at RVA `0x1000`. -/
def displacedPE : PEBackendState :=
  ⟨0x400000, 0x500000, [⟨textname, 0x200, 0x1000, 0x200, 0x60000020⟩]⟩

/-- C9 counterexample: for a displaced object the wrapped section's
`virtual_address` is not the record's virtual address plus the eventual
mapped base — the remap applied at construction is the link base
(`0x1000 + 0x400000 = 0x401000`, not `0x1000 + 0x500000`). -/
theorem section_remap_counterexample :
    ¬ ((pe_register_sections displacedPE).map PESection.virtual_address
        = displacedPE.raw_sections.map
          (fun s => s.VirtualAddress + displacedPE.mapped_base)) := by
  decide

/-- C9 (amended): each wrapped section's `virtual_address` is the raw
record's virtual address plus the object's linked base; this coincides
with the mapped base exactly when the loader has not displaced the
object away from its link base. -/
theorem section_remap_is_linked_base (pe : PEBackendState) :
    (pe_register_sections pe).map PESection.virtual_address
      = pe.raw_sections.map (fun s => s.VirtualAddress + pe.linked_base) ∧
    (pe.mapped_base = pe.linked_base →
      (pe_register_sections pe).map PESection.virtual_address
        = pe.raw_sections.map (fun s => s.VirtualAddress + pe.mapped_base)) := by
  constructor
  · simp [pe_register_sections, PESection_init]
  · intro h
    simp [pe_register_sections, PESection_init, h]

/-- A freshly constructed backend, not (yet) displaced: mapped base
equals linked base. -/
def freshPE : PEBackendState :=
  ⟨0x400000, 0x400000, [⟨textname, 0x200, 0x1000, 0x200, 0x60000020⟩]⟩

theorem section_remap_is_linked_base_witness :
    ((pe_register_sections freshPE).map PESection.virtual_address
      = freshPE.raw_sections.map (fun s => s.VirtualAddress + freshPE.linked_base)) ∧
    ((pe_register_sections freshPE).map PESection.virtual_address
      = freshPE.raw_sections.map (fun s => s.VirtualAddress + freshPE.mapped_base)) :=
  ⟨(section_remap_is_linked_base freshPE).1,
    (section_remap_is_linked_base freshPE).2 rfl⟩

/-- One object as placed by the loader: its link-time base, its image
size (extent), and its assigned mapped base. -/
structure PlacedObj where
  linked_base : Nat
  size : Nat
  mapped_base : Nat
deriving DecidableEq

/-- Modelled from the spec: `Loader.add_object` (the loader module is
not under `src/`, only its test is; spec §4.4): the object is placed at
its preferred (link) base when `[desired, desired + extent)` meets no
already-placed object's `[mapped_base, mapped_base + extent)`, and
otherwise at the maximum end address over the placed objects; returns
the new placed list and the assigned mapped base (spec §6). -/
def add_object (placed : List PlacedObj) (linked_base size : Nat) :
    List PlacedObj × Nat :=
  let desired := linked_base
  let conflict := placed.any (fun p =>
    decide (desired < p.mapped_base + p.size) && decide (p.mapped_base < desired + size))
  let mapped := if conflict
    then (placed.map (fun p => p.mapped_base + p.size)).foldl max 0
    else desired
  (placed ++ [⟨linked_base, size, mapped⟩], mapped)

/-- Adding a sequence of `(link_base, size)` objects to an empty
loader. -/
def place_all (objs : List (Nat × Nat)) : List PlacedObj :=
  objs.foldl (fun acc o => (add_object acc o.1 o.2).1) []

/-- The half-open ranges `[mapped_base, mapped_base + size)` of two
placed objects do not intersect. -/
def RangeDisjoint (a b : PlacedObj) : Prop :=
  ¬ (a.mapped_base < b.mapped_base + b.size ∧ b.mapped_base < a.mapped_base + a.size)

/-- All placed ranges are pairwise non-overlapping. -/
def RangesDisjoint (l : List PlacedObj) : Prop := l.Pairwise RangeDisjoint

theorem le_foldl_max (l : List Nat) : ∀ a : Nat, a ≤ l.foldl max a := by
  induction l with
  | nil => intro a; exact Nat.le_refl _
  | cons x l ih =>
    intro a
    exact Nat.le_trans (Nat.le_max_left a x) (ih (max a x))

theorem mem_le_foldl_max (l : List Nat) : ∀ a x : Nat, x ∈ l → x ≤ l.foldl max a := by
  induction l with
  | nil => intro a x hx; cases hx
  | cons y l ih =>
    intro a x hx
    cases hx with
    | head => exact Nat.le_trans (Nat.le_max_right _ _) (le_foldl_max l _)
    | tail _ h => exact ih (max a y) x h

/-- The new object is appended, and its base is either above every
already-placed end address (conflict) or the preferred base with no
placed range meeting `[lb, lb + sz)` (no conflict). -/
theorem add_object_cases (placed : List PlacedObj) (lb sz : Nat) :
    (add_object placed lb sz).1 = placed ++ [⟨lb, sz, (add_object placed lb sz).2⟩] ∧
    ((∀ p ∈ placed, p.mapped_base + p.size ≤ (add_object placed lb sz).2) ∨
      ((add_object placed lb sz).2 = lb ∧
        ∀ p ∈ placed, ¬ (lb < p.mapped_base + p.size ∧ p.mapped_base < lb + sz))) := by
  refine ⟨by simp only [add_object], ?_⟩
  by_cases hc : placed.any (fun p =>
      decide (lb < p.mapped_base + p.size) && decide (p.mapped_base < lb + sz)) = true
  · left
    intro p hp
    have hsnd : (add_object placed lb sz).2
        = (placed.map (fun p => p.mapped_base + p.size)).foldl max 0 := by
      simp only [add_object]
      rw [if_pos hc]
    rw [hsnd]
    exact mem_le_foldl_max _ 0 _ (List.mem_map_of_mem _ hp)
  · right
    have hsnd : (add_object placed lb sz).2 = lb := by
      simp only [add_object]
      rw [if_neg hc]
    refine ⟨hsnd, ?_⟩
    intro p hp hcon
    apply hc
    rw [List.any_eq_true]
    refine ⟨p, hp, ?_⟩
    simp only [Bool.and_eq_true, decide_eq_true_eq]
    exact hcon

/-- `add_object` preserves pairwise disjointness of the placed
ranges. -/
theorem add_object_disjoint (placed : List PlacedObj) (lb sz : Nat)
    (h : RangesDisjoint placed) :
    RangesDisjoint (add_object placed lb sz).1 := by
  obtain ⟨hfst, hcase⟩ := add_object_cases placed lb sz
  rw [RangesDisjoint, hfst]
  apply List.pairwise_append.mpr
  refine ⟨h, List.pairwise_singleton _ _, ?_⟩
  intro p hp x hx
  rw [List.mem_singleton] at hx
  subst hx
  intro hcon
  simp only [] at hcon
  rcases hcase with hup | ⟨hsnd, hfree⟩
  · have := hup p hp
    omega
  · apply hfree p hp
    rw [hsnd] at hcon
    exact ⟨hcon.2, hcon.1⟩

theorem place_all_aux (objs : List (Nat × Nat)) :
    ∀ acc : List PlacedObj, RangesDisjoint acc →
      RangesDisjoint (objs.foldl (fun acc o => (add_object acc o.1 o.2).1) acc) := by
  induction objs with
  | nil => intro acc h; exact h
  | cons o objs ih =>
    intro acc h
    exact ih _ (add_object_disjoint acc o.1 o.2 h)

theorem place_all_disjoint (objs : List (Nat × Nat)) : RangesDisjoint (place_all objs) :=
  place_all_aux objs [] List.Pairwise.nil

/-- C1: every sequence of `add_object` calls yields pairwise
non-overlapping `[mapped_base, mapped_base + extent)` ranges; and in
the literal overlap scenario — a base object preferred at `0x8048000`
of any positive size `S`, then an object preferred at `0x8047000` of
size `0x2000`, then one preferred at `0x8047000` of size `0x1000` — the
base object keeps its base, the first added object is displaced
strictly above `0x8048000`, and the second added object keeps
`0x8047000`. -/
theorem placement_overlap_free (S : Nat) (hS : 0 < S) :
    (∀ objs : List (Nat × Nat), RangesDisjoint (place_all objs)) ∧
    (add_object [] 0x8048000 S).2 = 0x8048000 ∧
    0x8048000 < (add_object (add_object [] 0x8048000 S).1 0x8047000 0x2000).2 ∧
    (add_object (add_object (add_object [] 0x8048000 S).1 0x8047000 0x2000).1
        0x8047000 0x1000).2 = 0x8047000 := by
  have h1 : add_object [] 0x8048000 S = ([⟨0x8048000, S, 0x8048000⟩], 0x8048000) := rfl
  have hc2 : ([⟨0x8048000, S, 0x8048000⟩] : List PlacedObj).any (fun p =>
      decide (0x8047000 < p.mapped_base + p.size)
        && decide (p.mapped_base < 0x8047000 + 0x2000)) = true := by
    simp only [List.any_cons, List.any_nil, Bool.or_false, Bool.and_eq_true, decide_eq_true_eq]
    constructor <;> omega
  have h2 : add_object [⟨0x8048000, S, 0x8048000⟩] 0x8047000 0x2000
      = ([⟨0x8048000, S, 0x8048000⟩, ⟨0x8047000, 0x2000, 0x8048000 + S⟩], 0x8048000 + S) := by
    simp only [add_object]
    rw [if_pos hc2]
    simp
  have hc3 : ([⟨0x8048000, S, 0x8048000⟩, ⟨0x8047000, 0x2000, 0x8048000 + S⟩] :
      List PlacedObj).any (fun p =>
        decide (0x8047000 < p.mapped_base + p.size)
          && decide (p.mapped_base < 0x8047000 + 0x1000)) = false := by
    rw [Bool.eq_false_iff]
    intro hany
    rw [List.any_eq_true] at hany
    obtain ⟨p, hp, hpred⟩ := hany
    simp only [Bool.and_eq_true, decide_eq_true_eq] at hpred
    simp only [List.mem_cons, List.not_mem_nil, or_false] at hp
    rcases hp with rfl | rfl
    · dsimp only at hpred
      omega
    · dsimp only at hpred
      omega
  have h3 : (add_object [⟨0x8048000, S, 0x8048000⟩, ⟨0x8047000, 0x2000, 0x8048000 + S⟩]
      0x8047000 0x1000).2 = 0x8047000 := by
    simp only [add_object]
    rw [if_neg (by simp [hc3])]
  refine ⟨place_all_disjoint, ?_, ?_, ?_⟩
  · rw [h1]
  · rw [h1, h2]
    omega
  · rw [h1, h2]
    exact h3

theorem placement_overlap_free_witness :
    0 < 0x1000 ∧
    ((∀ objs : List (Nat × Nat), RangesDisjoint (place_all objs)) ∧
    (add_object [] 0x8048000 0x1000).2 = 0x8048000 ∧
    0x8048000 < (add_object (add_object [] 0x8048000 0x1000).1 0x8047000 0x2000).2 ∧
    (add_object (add_object (add_object [] 0x8048000 0x1000).1 0x8047000 0x2000).1
        0x8047000 0x1000).2 = 0x8047000) :=
  ⟨by decide, placement_overlap_free 0x1000 (by decide)⟩
